import Mathlib

/-!
Verification of the kosmos animation core (easing curves, animatable
properties, keyframe tracks, the timeline state machine and the fluent
builder) against its natural-language specification.

Embedding conventions:
* Rust `f32` scalars are embedded as exact rationals (`ℚ`); decimal
  literals translate exactly (for instance `7.5625 = 121/16`).
* The single place where IEEE-754 special values are observable in the
  animation core is the timeline's `elapsed_time`, which the source can
  drive to NaN through `x % 0.0`.  `elapsed_time` is therefore embedded
  as `F32`, a rational extended with an explicit NaN, whose comparison,
  remainder and clamp operations follow Rust `f32` semantics (every
  comparison against NaN is false, `clamp` returns NaN on NaN).
* Transcendental helpers (`sin`, `2^x`) appear only inside the interior
  branch of the elastic easing curves, which no claim evaluates (the
  source special-cases t = 0 and t = 1 before reaching them); they are
  embedded as stand-in functions, clearly marked below.
-/

namespace Kosmos

/-- Rust `f32::clamp(lo, hi)` on rationals: `if self < min { min } else
if self > max { max } else { self }`. -/
def clampQ (x lo hi : ℚ) : ℚ :=
  if x < lo then lo else if x > hi then hi else x

/-- Truncation toward zero, as Rust float-to-integer truncation. -/
def trunc32 (x : ℚ) : ℤ :=
  if 0 ≤ x then ⌊x⌋ else ⌈x⌉

/-- Rust `%` on finite nonzero-divisor floats: `x - y * trunc(x / y)`
(remainder carrying the dividend's sign). -/
def rem32 (x y : ℚ) : ℚ :=
  x - y * (trunc32 (x / y) : ℚ)

/-- An `f32` value that is either a rational or NaN.  Only the
timeline's `elapsed_time` ever needs the NaN point. -/
inductive F32 where
  | nan : F32
  | val (q : ℚ) : F32
deriving DecidableEq

namespace F32

/-- Addition of a finite delta; NaN propagates. -/
def add : F32 → ℚ → F32
  | nan, _ => nan
  | val x, d => val (x + d)

/-- Subtraction of a finite delta; NaN propagates. -/
def sub : F32 → ℚ → F32
  | nan, _ => nan
  | val x, d => val (x - d)

/-- Rust `self >= q`: false when self is NaN. -/
def ge : F32 → ℚ → Bool
  | nan, _ => false
  | val x, q => decide (q ≤ x)

/-- Rust `self <= q`: false when self is NaN. -/
def le : F32 → ℚ → Bool
  | nan, _ => false
  | val x, q => decide (x ≤ q)

/-- Rust `self % q` on f32: NaN when self is NaN or the divisor is
zero, otherwise the truncated remainder. -/
def rem : F32 → ℚ → F32
  | nan, _ => nan
  | val x, q => if q = 0 then nan else val (rem32 x q)

/-- Rust `self / q` guarded by the caller (`progress` divides only when
`duration > 0`); NaN propagates. -/
def divq : F32 → ℚ → F32
  | nan, _ => nan
  | val x, q => if q = 0 then nan else val (x / q)

/-- Rust `f32::clamp`: NaN stays NaN (both comparisons are false). -/
def clamp : F32 → ℚ → ℚ → F32
  | nan, _, _ => nan
  | val x, lo, hi => val (clampQ x lo hi)

end F32

/-! ## Easing (src/framework/src/animations/easing.rs) -/

/-- The 25 easing curve selectors of `enum Easing`. -/
inductive Easing where
  | Linear
  | EaseIn
  | EaseOut
  | EaseInOut
  | EaseInQuad
  | EaseOutQuad
  | EaseInOutQuad
  | EaseInCubic
  | EaseOutCubic
  | EaseInOutCubic
  | EaseInQuart
  | EaseOutQuart
  | EaseInOutQuart
  | EaseInElastic
  | EaseOutElastic
  | EaseInOutElastic
  | EaseInBounce
  | EaseOutBounce
  | EaseInOutBounce
  | EaseInBack
  | EaseOutBack
  | EaseInOutBack
  | EaseInCirc
  | EaseOutCirc
  | EaseInOutCirc
deriving DecidableEq

/-- Stand-in for `f32::sin`.  It is reached only inside the interior
branch of the three elastic curves; every claim evaluates the elastic
curves only at t = 0 or t = 1, where the source's explicit special case
returns before calling `sin`. -/
def sin32 (_x : ℚ) : ℚ := 0

/-- Stand-in for `2.0_f32.powf`, reached only inside the interior
branch of the elastic curves (see `sin32`). -/
def exp2_32 (_x : ℚ) : ℚ := 0

/-- The exact value of `std::f32::consts::PI` (the `f32` nearest to π),
used only as an argument to the `sin32` stand-in. -/
def pi32 : ℚ := 13176795 / 4194304

/-- Square root used by the circular easing curves.  Exact on perfect
squares of naturals over perfect squares (in particular on the only
arguments the claims evaluate, 0 and 1); a stand-in elsewhere, since
`f32::sqrt` is irrational almost everywhere. -/
def sqrt32 (q : ℚ) : ℚ :=
  (Nat.sqrt q.num.toNat : ℚ) / (Nat.sqrt q.den : ℚ)

/-- The piecewise four-segment bounce of the `EaseOutBounce` arm. -/
def bounceOut (t : ℚ) : ℚ :=
  if t < 1 / 2.75 then
    7.5625 * t * t
  else if t < 2 / 2.75 then
    let t := t - 1.5 / 2.75
    7.5625 * t * t + 0.75
  else if t < 2.5 / 2.75 then
    let t := t - 2.25 / 2.75
    7.5625 * t * t + 0.9375
  else
    let t := t - 2.625 / 2.75
    7.5625 * t * t + 0.984375

/-- The `EaseInBounce` arm: `1.0 - Easing::EaseOutBounce.apply(1.0 - t)`;
the inner `apply` re-clamps its argument, spelled out here. -/
def bounceInClamped (t : ℚ) : ℚ :=
  1 - bounceOut (clampQ (1 - t) 0 1)

/-- The body of `Easing::apply` after the entry clamp of `t`; recursive
calls `Easing::X.apply(u)` in the source are written as the callee's
body applied to `clampQ u 0 1`. -/
def applyClamped (e : Easing) (t : ℚ) : ℚ :=
  match e with
  | .Linear => t
  | .EaseIn | .EaseInQuad => t * t
  | .EaseOut | .EaseOutQuad => t * (2 - t)
  | .EaseInOut | .EaseInOutQuad =>
    if t < 0.5 then 2 * t * t else -1 + (4 - 2 * t) * t
  | .EaseInCubic => t * t * t
  | .EaseOutCubic =>
    let t := t - 1
    t * t * t + 1
  | .EaseInOutCubic =>
    if t < 0.5 then 4 * t * t * t
    else
      let t := 2 * t - 2
      1 + t * t * t / 2
  | .EaseInQuart => t * t * t * t
  | .EaseOutQuart =>
    let t := t - 1
    1 - t * t * t * t
  | .EaseInOutQuart =>
    if t < 0.5 then 8 * t * t * t * t
    else
      let t := t - 1
      1 - 8 * t * t * t * t
  | .EaseInElastic =>
    if t = 0 ∨ t = 1 then t
    else
      let p : ℚ := 0.3
      let s : ℚ := p / 4
      let t := t - 1;
      -(exp2_32 (10 * t) * sin32 ((t - s) * (2 * pi32) / p))
  | .EaseOutElastic =>
    if t = 0 ∨ t = 1 then t
    else
      let p : ℚ := 0.3
      let s : ℚ := p / 4
      exp2_32 (-10 * t) * sin32 ((t - s) * (2 * pi32) / p) + 1
  | .EaseInOutElastic =>
    if t = 0 ∨ t = 1 then t
    else
      let p : ℚ := 0.3 * 1.5
      let s : ℚ := p / 4
      let t := 2 * t
      if t < 1 then
        let t := t - 1;
        -0.5 * (exp2_32 (10 * t) * sin32 ((t - s) * (2 * pi32) / p))
      else
        let t := t - 1
        exp2_32 (-10 * t) * sin32 ((t - s) * (2 * pi32) / p) * 0.5 + 1
  | .EaseInBounce => bounceInClamped t
  | .EaseOutBounce => bounceOut t
  | .EaseInOutBounce =>
    if t < 0.5 then bounceInClamped (clampQ (t * 2) 0 1) * 0.5
    else bounceOut (clampQ (t * 2 - 1) 0 1) * 0.5 + 0.5
  | .EaseInBack =>
    let s : ℚ := 1.70158
    t * t * ((s + 1) * t - s)
  | .EaseOutBack =>
    let s : ℚ := 1.70158
    let t := t - 1
    t * t * ((s + 1) * t + s) + 1
  | .EaseInOutBack =>
    let s : ℚ := 1.70158 * 1.525
    let t := t * 2
    if t < 1 then 0.5 * (t * t * ((s + 1) * t - s))
    else
      let t := t - 2
      0.5 * (t * t * ((s + 1) * t + s) + 2)
  | .EaseInCirc => 1 - sqrt32 (1 - t * t)
  | .EaseOutCirc =>
    let t := t - 1
    sqrt32 (1 - t * t)
  | .EaseInOutCirc =>
    let t := t * 2;
    if t < 1 then -0.5 * (sqrt32 (1 - t * t) - 1)
    else
      let t := t - 2
      0.5 * (sqrt32 (1 - t * t) + 1)

/-- `Easing::apply`: clamp `t` to [0, 1], then evaluate the curve. -/
def Easing.apply (e : Easing) (t : ℚ) : ℚ :=
  applyClamped e (clampQ t 0 1)

/-- `lerp_with_easing` at scalar type: `start + (end - start) * easing.apply(t)`. -/
def lerp_with_easing (a b t : ℚ) (easing : Easing) : ℚ :=
  a + (b - a) * easing.apply t

/-! ## Animatable properties (src/src/animations/keyframe.rs) -/

/-- `bevy::Vec2` with exact coordinates. -/
structure Vec2 where
  x : ℚ
  y : ℚ
deriving DecidableEq

/-- A 4-channel color.  The source interpolates colors after
`Color::to_linear`, so colors are embedded directly in linear RGBA
space (`to_linear` is then the identity). -/
structure ColorQ where
  red : ℚ
  green : ℚ
  blue : ℚ
  alpha : ℚ
deriving DecidableEq

/-- `Color::WHITE` (linear RGBA all ones). -/
def ColorQ.white : ColorQ := ⟨1, 1, 1, 1⟩

/-- `enum AnimatableProperty`. -/
inductive AnimatableProperty where
  | Position (v : Vec2)
  | Rotation (r : ℚ)
  | Scale (v : Vec2)
  | Color (c : ColorQ)
  | Opacity (o : ℚ)
  | Custom (name : String) (value : ℚ)
deriving DecidableEq

/-- Whether two properties are of the same variant (with equal names
for `Custom`) — exactly the cases in which `interpolate` produces a
value. -/
def sameVariant : AnimatableProperty → AnimatableProperty → Bool
  | .Position _, .Position _ => true
  | .Rotation _, .Rotation _ => true
  | .Scale _, .Scale _ => true
  | .Color _, .Color _ => true
  | .Opacity _, .Opacity _ => true
  | .Custom na _, .Custom nb _ => na = nb
  | _, _ => false

/-- `AnimatableProperty::interpolate`: per-component
`lerp_with_easing` for matching variants, `None` otherwise. -/
def AnimatableProperty.interpolate (a b : AnimatableProperty) (t : ℚ)
    (easing : Easing) : Option AnimatableProperty :=
  match a, b with
  | .Position va, .Position vb =>
    some (.Position ⟨lerp_with_easing va.x vb.x t easing,
                     lerp_with_easing va.y vb.y t easing⟩)
  | .Rotation ra, .Rotation rb =>
    some (.Rotation (lerp_with_easing ra rb t easing))
  | .Scale va, .Scale vb =>
    some (.Scale ⟨lerp_with_easing va.x vb.x t easing,
                  lerp_with_easing va.y vb.y t easing⟩)
  | .Color ca, .Color cb =>
    some (.Color ⟨lerp_with_easing ca.red cb.red t easing,
                  lerp_with_easing ca.green cb.green t easing,
                  lerp_with_easing ca.blue cb.blue t easing,
                  lerp_with_easing ca.alpha cb.alpha t easing⟩)
  | .Opacity oa, .Opacity ob =>
    some (.Opacity (lerp_with_easing oa ob t easing))
  | .Custom na va, .Custom nb vb =>
    if na = nb then some (.Custom na (lerp_with_easing va vb t easing))
    else none
  | _, _ => none

/-- `bevy::Vec3` with exact coordinates. -/
structure Vec3Q where
  x : ℚ
  y : ℚ
  z : ℚ
deriving DecidableEq

/-- A target transform.  `rotation` records the angle of the
`Quat::from_rotation_z` the source writes. -/
structure TransformQ where
  translation : Vec3Q
  rotation : ℚ
  scale : Vec3Q
deriving DecidableEq

/-- `AnimatableProperty::apply_to_transform`: Position writes x/y
translation (z untouched), Rotation the z-rotation, Scale x/y scale;
Color, Opacity and Custom are no-ops on a transform. -/
def AnimatableProperty.apply_to_transform :
    AnimatableProperty → TransformQ → TransformQ
  | .Position p, tf =>
    { tf with translation := { tf.translation with x := p.x, y := p.y } }
  | .Rotation r, tf => { tf with rotation := r }
  | .Scale s, tf => { tf with scale := { tf.scale with x := s.x, y := s.y } }
  | _, tf => tf

/-- `bevy::ColorMaterial`, reduced to its animated `color` slot. -/
structure ColorMaterialQ where
  color : ColorQ
deriving DecidableEq

/-- `AnimatableProperty::apply_to_material`: Color overwrites the
material color, Opacity its alpha channel (`set_alpha`), everything
else is a no-op.  Note: no clamping happens here. -/
def AnimatableProperty.apply_to_material :
    AnimatableProperty → ColorMaterialQ → ColorMaterialQ
  | .Color c, m => { m with color := c }
  | .Opacity o, m => { m with color := { m.color with alpha := o } }
  | _, m => m

/-! ## Keyframes and tracks (src/src/animations/keyframe.rs) -/

/-- `struct Keyframe`. -/
structure Keyframe where
  time : ℚ
  property : AnimatableProperty
  easing : Easing
deriving DecidableEq

/-- `Keyframe::position`. -/
def Keyframe.position (time : ℚ) (p : Vec2) (easing : Easing) : Keyframe :=
  ⟨time, .Position p, easing⟩

/-- `Keyframe::rotation`. -/
def Keyframe.rotation (time r : ℚ) (easing : Easing) : Keyframe :=
  ⟨time, .Rotation r, easing⟩

/-- `Keyframe::scale`. -/
def Keyframe.scale (time : ℚ) (s : Vec2) (easing : Easing) : Keyframe :=
  ⟨time, .Scale s, easing⟩

/-- `Keyframe::color`. -/
def Keyframe.color (time : ℚ) (c : ColorQ) (easing : Easing) : Keyframe :=
  ⟨time, .Color c, easing⟩

/-- `Keyframe::opacity`. -/
def Keyframe.opacity (time o : ℚ) (easing : Easing) : Keyframe :=
  ⟨time, .Opacity o, easing⟩

/-- `struct KeyframeTrack`. -/
structure KeyframeTrack where
  name : String
  keyframes : List Keyframe
deriving DecidableEq

/-- Ordered insertion by time, placing the new keyframe after existing
keyframes of equal time.  `KeyframeTrack::add_keyframe` pushes and then
runs a stable sort by time; on a list that is already sorted (the
invariant every insertion preserves) that is exactly this insertion. -/
def insertSorted (kf : Keyframe) : List Keyframe → List Keyframe
  | [] => [kf]
  | k :: ks => if kf.time < k.time then kf :: k :: ks else k :: insertSorted kf ks

/-- `KeyframeTrack::add_keyframe`. -/
def KeyframeTrack.add_keyframe (tr : KeyframeTrack) (kf : Keyframe) :
    KeyframeTrack :=
  { tr with keyframes := insertSorted kf tr.keyframes }

/-- The bracketing-pair loop of `get_value_at`: scan adjacent pairs,
and on the first pair with `current.time <= time <= next.time` return
`current.property.interpolate(next.property, u, next.easing)` with
`u = (time - current.time) / (next.time - current.time)`. -/
def segValue (t : ℚ) : List Keyframe → Option AnimatableProperty
  | k1 :: k2 :: rest =>
    if k1.time ≤ t ∧ t ≤ k2.time then
      k1.property.interpolate k2.property ((t - k1.time) / (k2.time - k1.time))
        k2.easing
    else segValue t (k2 :: rest)
  | _ => none

/-- `KeyframeTrack::get_value_at`: none on an empty track, clamp to the
first keyframe before the start, clamp to the last keyframe after the
end, otherwise the bracketing-pair loop. -/
def KeyframeTrack.get_value_at (tr : KeyframeTrack) (time : ℚ) :
    Option AnimatableProperty :=
  match tr.keyframes with
  | [] => none
  | k0 :: rest =>
    let klast := (k0 :: rest).getLast (List.cons_ne_nil k0 rest)
    if time ≤ k0.time then some k0.property
    else if klast.time ≤ time then some klast.property
    else segValue time (k0 :: rest)

/-- `KeyframeTrack::duration`: time of the last keyframe, 0 if empty. -/
def KeyframeTrack.duration (tr : KeyframeTrack) : ℚ :=
  ((tr.keyframes.getLast?).map (·.time)).getD 0

/-- `enum AnimationState`. -/
inductive AnimationState where
  | Idle
  | Playing
  | Paused
  | Finished
deriving DecidableEq

/-- `enum AnimationMode`. -/
inductive AnimationMode where
  | Once
  | Loop
  | PingPong
  | Repeat (count : ℕ)
deriving DecidableEq

/-- `struct AnimationTimeline`.  The tracks map is embedded as an
association list (`HashMap` keys are unique; iteration order matters to
no claim).  The boxed `on_start`/`on_complete` callbacks are embedded
as counters recording how many times each would have been invoked. -/
structure AnimationTimeline where
  name : String
  tracks : List (String × KeyframeTrack)
  duration : ℚ
  mode : AnimationMode
  state : AnimationState
  elapsed_time : F32
  speed : ℚ
  repeat_count : ℕ
  reverse : Bool
  delay : ℚ
  delay_elapsed : ℚ
  on_start_count : ℕ
  on_complete_count : ℕ
deriving DecidableEq

namespace AnimationTimeline

/-- `AnimationTimeline::new`. -/
def new (name : String) : AnimationTimeline :=
  { name := name
    tracks := []
    duration := 0
    mode := .Once
    state := .Idle
    elapsed_time := .val 0
    speed := 1
    repeat_count := 0
    reverse := false
    delay := 0
    delay_elapsed := 0
    on_start_count := 0
    on_complete_count := 0 }

/-- The `tracks.entry(name).or_insert_with(new).add_keyframe(kf)` step
of `AnimationTimeline::add_keyframe`, on the association list. -/
def addTrackKeyframe (name : String) (kf : Keyframe) :
    List (String × KeyframeTrack) → List (String × KeyframeTrack)
  | [] => [(name, KeyframeTrack.add_keyframe ⟨name, []⟩ kf)]
  | (n, tr) :: rest =>
    if n = name then (n, tr.add_keyframe kf) :: rest
    else (n, tr) :: addTrackKeyframe name kf rest

/-- `AnimationTimeline::update_duration`: the max of the track
durations (`max_by`), 0 when there are no tracks. -/
def update_duration (s : AnimationTimeline) : AnimationTimeline :=
  { s with
    duration :=
      match s.tracks.map (fun nt => nt.2.duration) with
      | [] => 0
      | d :: ds => ds.foldl max d }

/-- `AnimationTimeline::add_keyframe`: insert into the named track,
then refresh the aggregate duration. -/
def add_keyframe (s : AnimationTimeline) (track_name : String)
    (kf : Keyframe) : AnimationTimeline :=
  update_duration { s with tracks := addTrackKeyframe track_name kf s.tracks }

/-- `AnimationTimeline::set_mode`. -/
def set_mode (s : AnimationTimeline) (mode : AnimationMode) : AnimationTimeline :=
  { s with mode := mode }

/-- `AnimationTimeline::set_speed` (`speed.max(0.0)`). -/
def set_speed (s : AnimationTimeline) (speed : ℚ) : AnimationTimeline :=
  { s with speed := max speed 0 }

/-- `AnimationTimeline::set_delay` (`delay.max(0.0)`). -/
def set_delay (s : AnimationTimeline) (delay : ℚ) : AnimationTimeline :=
  { s with delay := max delay 0 }

/-- `AnimationTimeline::play`. -/
def play (s : AnimationTimeline) : AnimationTimeline :=
  if s.state = .Idle then
    { s with
      state := .Playing
      elapsed_time := .val 0
      delay_elapsed := 0
      repeat_count := 0
      reverse := false
      on_start_count := s.on_start_count + 1 }
  else if s.state = .Paused then { s with state := .Playing }
  else s

/-- `AnimationTimeline::pause`. -/
def pause (s : AnimationTimeline) : AnimationTimeline :=
  if s.state = .Playing then { s with state := .Paused } else s

/-- `AnimationTimeline::stop`. -/
def stop (s : AnimationTimeline) : AnimationTimeline :=
  { s with
    state := .Idle
    elapsed_time := .val 0
    delay_elapsed := 0
    repeat_count := 0
    reverse := false }

/-- `AnimationTimeline::update_animation`: advance `elapsed_time` by
the speed-scaled delta in the current direction, apply the mode's
boundary policy, then clamp into `[0, duration]`.  Every comparison,
the `%` and the final clamp follow `f32` semantics through `F32`. -/
def update_animation (s : AnimationTimeline) (delta : ℚ) : AnimationTimeline :=
  let adjusted_delta := delta * s.speed
  let e := if s.reverse then s.elapsed_time.sub adjusted_delta
           else s.elapsed_time.add adjusted_delta
  let s1 :=
    match s.mode with
    | .Once =>
      if e.ge s.duration then
        { s with
          elapsed_time := .val s.duration
          state := .Finished
          on_complete_count := s.on_complete_count + 1 }
      else { s with elapsed_time := e }
    | .Loop =>
      if e.ge s.duration then { s with elapsed_time := e.rem s.duration }
      else { s with elapsed_time := e }
    | .PingPong =>
      if ¬s.reverse ∧ e.ge s.duration then
        { s with elapsed_time := .val s.duration, reverse := true }
      else if s.reverse ∧ e.le 0 then
        { s with
          elapsed_time := .val 0
          reverse := false
          repeat_count := s.repeat_count + 1 }
      else { s with elapsed_time := e }
    | .Repeat count =>
      if e.ge s.duration then
        if count ≤ s.repeat_count + 1 then
          { s with
            repeat_count := s.repeat_count + 1
            elapsed_time := .val s.duration
            state := .Finished
            on_complete_count := s.on_complete_count + 1 }
        else
          { s with
            repeat_count := s.repeat_count + 1
            elapsed_time := e.rem s.duration }
      else { s with elapsed_time := e }
  { s1 with elapsed_time := s1.elapsed_time.clamp 0 s1.duration }

/-- `AnimationTimeline::update`: no-op unless Playing; consume the
initial delay first, carrying any overflow into the same frame's
animation advance. -/
def update (s : AnimationTimeline) (delta : ℚ) : AnimationTimeline :=
  if s.state = .Playing then
    if s.delay_elapsed < s.delay then
      let de := s.delay_elapsed + delta
      if de < s.delay then { s with delay_elapsed := de }
      else update_animation { s with delay_elapsed := de } (de - s.delay)
    else update_animation s delta
  else s

/-- `AnimationTimeline::get_current_values`: sample every track at
`elapsed_time`, keeping the channels that produced a value.  A NaN
`elapsed_time` compares false against every keyframe time, so every
track samples to none and the result is empty. -/
def get_current_values (s : AnimationTimeline) :
    List (String × AnimatableProperty) :=
  match s.elapsed_time with
  | .val q =>
    s.tracks.filterMap (fun nt => (nt.2.get_value_at q).map (fun v => (nt.1, v)))
  | .nan => []

/-- `AnimationTimeline::progress`: `elapsed / duration` clamped to
[0, 1] when `duration > 0`, otherwise 0. -/
def progress (s : AnimationTimeline) : F32 :=
  if 0 < s.duration then (s.elapsed_time.divq s.duration).clamp 0 1
  else .val 0

/-- `AnimationTimeline::is_playing`. -/
def is_playing (s : AnimationTimeline) : Bool :=
  s.state = .Playing

/-- `AnimationTimeline::is_finished`. -/
def is_finished (s : AnimationTimeline) : Bool :=
  s.state = .Finished

end AnimationTimeline

/-! ## Builder (src/framework/src/animations/builder.rs) -/

/-- `struct AnimationBuilder`. -/
structure AnimationBuilder where
  timeline : AnimationTimeline
  current_time : ℚ
deriving DecidableEq

namespace AnimationBuilder

/-- Channel names used by the builder. -/
def positionChannel : String := "position"

/-- The rotation channel name. -/
def rotationChannel : String := "rotation"

/-- The scale channel name. -/
def scaleChannel : String := "scale"

/-- The color channel name. -/
def colorChannel : String := "color"

/-- The opacity channel name. -/
def opacityChannel : String := "opacity"

/-- `AnimationBuilder::new`. -/
def new (name : String) : AnimationBuilder :=
  ⟨AnimationTimeline.new name, 0⟩

/-- `AnimationBuilder::move_to`: keyframe on "position" at
`current_time + duration`, cursor advanced by `duration`. -/
def move_to (b : AnimationBuilder) (position : Vec2) (duration : ℚ)
    (easing : Easing) : AnimationBuilder :=
  { timeline :=
      b.timeline.add_keyframe positionChannel
        (Keyframe.position (b.current_time + duration) position easing)
    current_time := b.current_time + duration }

/-- `AnimationBuilder::move_by`: when the cursor is at 0, first add a
`Position(ZERO)` keyframe at time 0; then add a keyframe at
`current_time + duration` holding `Position(delta)` itself (the source
comments that the delta is treated as absolute, assuming a zero start). -/
def move_by (b : AnimationBuilder) (delta : Vec2) (duration : ℚ)
    (easing : Easing) : AnimationBuilder :=
  let start_time := b.current_time
  let tl :=
    if start_time = 0 then
      b.timeline.add_keyframe positionChannel
        (Keyframe.position 0 ⟨0, 0⟩ .Linear)
    else b.timeline
  { timeline :=
      tl.add_keyframe positionChannel
        (Keyframe.position (start_time + duration) delta easing)
    current_time := start_time + duration }

/-- `AnimationBuilder::rotate_to`. -/
def rotate_to (b : AnimationBuilder) (angle duration : ℚ)
    (easing : Easing) : AnimationBuilder :=
  { timeline :=
      b.timeline.add_keyframe rotationChannel
        (Keyframe.rotation (b.current_time + duration) angle easing)
    current_time := b.current_time + duration }

/-- `AnimationBuilder::scale_to_xy`. -/
def scale_to_xy (b : AnimationBuilder) (scale : Vec2) (duration : ℚ)
    (easing : Easing) : AnimationBuilder :=
  { timeline :=
      b.timeline.add_keyframe scaleChannel
        (Keyframe.scale (b.current_time + duration) scale easing)
    current_time := b.current_time + duration }

/-- `AnimationBuilder::scale_to` (uniform scale via `Vec2::splat`). -/
def scale_to (b : AnimationBuilder) (scale duration : ℚ)
    (easing : Easing) : AnimationBuilder :=
  b.scale_to_xy ⟨scale, scale⟩ duration easing

/-- `AnimationBuilder::color_to`. -/
def color_to (b : AnimationBuilder) (color : ColorQ) (duration : ℚ)
    (easing : Easing) : AnimationBuilder :=
  { timeline :=
      b.timeline.add_keyframe colorChannel
        (Keyframe.color (b.current_time + duration) color easing)
    current_time := b.current_time + duration }

/-- `AnimationBuilder::fade_to`: the opacity argument is clamped to
[0, 1] when the keyframe is constructed. -/
def fade_to (b : AnimationBuilder) (opacity duration : ℚ)
    (easing : Easing) : AnimationBuilder :=
  { timeline :=
      b.timeline.add_keyframe opacityChannel
        (Keyframe.opacity (b.current_time + duration)
          (clampQ opacity 0 1) easing)
    current_time := b.current_time + duration }

/-- `AnimationBuilder::wait`: advance the cursor, no keyframe. -/
def wait (b : AnimationBuilder) (duration : ℚ) : AnimationBuilder :=
  { b with current_time := b.current_time + duration }

/-- `AnimationBuilder::with_mode`. -/
def with_mode (b : AnimationBuilder) (mode : AnimationMode) : AnimationBuilder :=
  { b with timeline := b.timeline.set_mode mode }

/-- `AnimationBuilder::with_speed`. -/
def with_speed (b : AnimationBuilder) (speed : ℚ) : AnimationBuilder :=
  { b with timeline := b.timeline.set_speed speed }

/-- `AnimationBuilder::with_delay`. -/
def with_delay (b : AnimationBuilder) (delay : ℚ) : AnimationBuilder :=
  { b with timeline := b.timeline.set_delay delay }

/-- The channel-appropriate identity value `build()` synthesizes,
matched on the variant of the track's first keyframe. -/
def defaultProperty : AnimatableProperty → AnimatableProperty
  | .Position _ => .Position ⟨0, 0⟩
  | .Rotation _ => .Rotation 0
  | .Scale _ => .Scale ⟨1, 1⟩
  | .Color _ => .Color ColorQ.white
  | .Opacity _ => .Opacity 1
  | .Custom n _ => .Custom n 0

/-- The per-track step of `build()`: when the track is nonempty and its
first keyframe's time is positive, insert the identity keyframe at
time 0 (index 0) with Linear easing. -/
def buildTrack (tr : KeyframeTrack) : KeyframeTrack :=
  match tr.keyframes with
  | [] => tr
  | k0 :: _ =>
    if 0 < k0.time then
      { tr with
        keyframes := ⟨0, defaultProperty k0.property, .Linear⟩ :: tr.keyframes }
    else tr

/-- `AnimationBuilder::build`: apply `buildTrack` to every track (the
source iterates a clone of the map and patches each track in place,
which is this per-track map). -/
def build (b : AnimationBuilder) : AnimationTimeline :=
  { b.timeline with
    tracks := b.timeline.tracks.map (fun nt => (nt.1, buildTrack nt.2)) }

end AnimationBuilder

/-! ## Driver application pass (src/src/animations/animation_system.rs) -/

/-- Whether a property is the Position variant. -/
def AnimatableProperty.isPosition : AnimatableProperty → Bool
  | .Position _ => true
  | _ => false

/-- The transform half of `apply_animation_properties`: fold
`apply_to_transform` over the sampled channel values of a frame. -/
def applyValuesToTransform (values : List (String × AnimatableProperty))
    (tf : TransformQ) : TransformQ :=
  values.foldl (fun acc nv => nv.2.apply_to_transform acc) tf

/-! ## Concrete scenarios named by the claims -/

/-- A Once-mode timeline of duration 2 in the Playing state (delay 0,
speed 1, not reversed). -/
def onceTimeline : AnimationTimeline :=
  { AnimationTimeline.new ("once") with
    duration := 2
    mode := .Once
    state := .Playing }

/-- A Loop-mode timeline of duration 0 in the Playing state. -/
def loopZeroTimeline : AnimationTimeline :=
  { AnimationTimeline.new ("loop0") with
    mode := .Loop
    state := .Playing }

/-- A PingPong-mode timeline of duration 2 in the Playing state. -/
def pingTimeline : AnimationTimeline :=
  { AnimationTimeline.new ("ping") with
    duration := 2
    mode := .PingPong
    state := .Playing }

/-- The spec's example track: Scale keyframes at t = 0, 1, 2 holding
scales 1, 2, 1, Linear easing. -/
def scaleTrack : KeyframeTrack :=
  ⟨AnimationBuilder.scaleChannel,
   [⟨0, .Scale ⟨1, 1⟩, .Linear⟩,
    ⟨1, .Scale ⟨2, 2⟩, .Linear⟩,
    ⟨2, .Scale ⟨1, 1⟩, .Linear⟩]⟩

/-- The spec's builder example: two chained `move_to` calls of duration
1 each, with no authored keyframe at t = 0. -/
def twoMoveBuilder : AnimationBuilder :=
  ((AnimationBuilder.new ("move")).move_to ⟨5, 0⟩ 1 .Linear).move_to
    ⟨7, 0⟩ 1 .Linear

/-- A Playing timeline at elapsed 1/2 whose single "position" track
holds a Position keyframe followed by a Rotation keyframe, so sampling
interpolates across mismatched variants and yields no value. -/
def mismatchTimeline : AnimationTimeline :=
  { AnimationTimeline.new ("mismatch") with
    tracks :=
      [(AnimationBuilder.positionChannel,
        ⟨AnimationBuilder.positionChannel,
         [⟨0, .Position ⟨0, 0⟩, .Linear⟩, ⟨1, .Rotation 0, .Linear⟩]⟩)]
    duration := 1
    state := .Playing
    elapsed_time := .val (1/2) }

/-! ## Helper lemmas -/

/-- Clamping to [0, 1] is idempotent. -/
theorem clampQ_idem (x : ℚ) : clampQ (clampQ x 0 1) 0 1 = clampQ x 0 1 := by
  unfold clampQ
  split_ifs <;> linarith

/-- The clamp of `x` into `[lo, hi]` lies in `[lo, hi]` when the
interval is nonempty. -/
theorem clampQ_mem (x lo hi : ℚ) (h : lo ≤ hi) :
    lo ≤ clampQ x lo hi ∧ clampQ x lo hi ≤ hi := by
  unfold clampQ
  split_ifs <;> constructor <;> linarith

/-! ## Claims -/

/-- C6: every one of the 25 easing curves satisfies `apply 0 = 0` and
`apply 1 = 1` exactly (the elastic curves through their explicit
t = 0 / t = 1 special cases), and the input `t` is clamped to [0, 1]
before evaluation. -/
theorem C6_easing_endpoints_exact (e : Easing) :
    e.apply 0 = 0 ∧ e.apply 1 = 1 ∧
      ∀ t : ℚ, e.apply t = e.apply (clampQ t 0 1) := by
  refine ⟨?_, ?_, ?_⟩
  · cases e <;>
      norm_num [Easing.apply, applyClamped, clampQ, bounceOut, bounceInClamped,
        sqrt32]
  · cases e <;>
      norm_num [Easing.apply, applyClamped, clampQ, bounceOut, bounceInClamped,
        sqrt32]
  · intro t
    unfold Easing.apply
    rw [clampQ_idem]

/-- C1: the Once-mode duration-2 timeline, updated twice by 1 second,
finishes at elapsed 2 with `on_complete` fired exactly once, and every
further update is a no-op that changes no field. -/
theorem C1_once_idempotent_termination :
    (onceTimeline.update 1).state = AnimationState.Playing ∧
    (onceTimeline.update 1).on_complete_count = 0 ∧
    ((onceTimeline.update 1).update 1).state = AnimationState.Finished ∧
    ((onceTimeline.update 1).update 1).elapsed_time = F32.val 2 ∧
    ((onceTimeline.update 1).update 1).on_complete_count = 1 ∧
    ∀ d : ℚ, ((onceTimeline.update 1).update 1).update d =
      (onceTimeline.update 1).update 1 := by
  have h1 : onceTimeline.update 1 =
      { onceTimeline with elapsed_time := .val 1 } := by
    norm_num [onceTimeline, AnimationTimeline.new, AnimationTimeline.update,
      AnimationTimeline.update_animation, F32.add, F32.ge, F32.clamp, clampQ]
  have h2 : (onceTimeline.update 1).update 1 =
      { onceTimeline with
        elapsed_time := .val 2
        state := .Finished
        on_complete_count := 1 } := by
    rw [h1]
    norm_num [onceTimeline, AnimationTimeline.new, AnimationTimeline.update,
      AnimationTimeline.update_animation, F32.add, F32.ge, F32.clamp, clampQ]
  refine ⟨by rw [h1]; rfl, by rw [h1]; rfl, by rw [h2], by rw [h2],
    by rw [h2], ?_⟩
  intro d
  rw [h2]
  simp [AnimationTimeline.update]

/-- C3 (failing input): a Loop-mode timeline of duration 0 drives
`elapsed_time` to NaN on the first update — the source computes
`elapsed % 0.0` unguarded — and it stays NaN on further updates, so the
claimed invariant "`elapsed_time` lies in [0, duration] and is never
NaN" fails while the spec explicitly demands no division by zero. -/
theorem C3_loop_zero_duration_nan :
    (loopZeroTimeline.update 1).elapsed_time = F32.nan ∧
    ((loopZeroTimeline.update 1).update 1).elapsed_time = F32.nan ∧
    (loopZeroTimeline.update 1).progress = F32.val 0 := by
  have h1 : loopZeroTimeline.update 1 =
      { loopZeroTimeline with elapsed_time := .nan } := by
    norm_num [loopZeroTimeline, AnimationTimeline.new, AnimationTimeline.update,
      AnimationTimeline.update_animation, F32.add, F32.ge, F32.rem, F32.clamp,
      clampQ]
  have h2 : (loopZeroTimeline.update 1).update 1 =
      { loopZeroTimeline with elapsed_time := .nan } := by
    rw [h1]
    norm_num [loopZeroTimeline, AnimationTimeline.new, AnimationTimeline.update,
      AnimationTimeline.update_animation, F32.add, F32.ge, F32.rem, F32.clamp,
      clampQ]
  refine ⟨by rw [h1], by rw [h2], ?_⟩
  rw [h1]
  norm_num [AnimationTimeline.progress, loopZeroTimeline, AnimationTimeline.new]

/-- C4: for every PingPong timeline of positive duration in the
Playing state (past its delay), an update that carries `elapsed_time`
to or past the duration while not reversed clamps to the duration and
flips `reverse` on; one that carries it to or below 0 while reversed
clamps to 0, flips `reverse` off and increments `repeat_count`; and
`update` never changes the state. -/
theorem C4_pingpong_boundaries (s : AnimationTimeline) (δ eq d : ℚ)
    (hm : s.mode = AnimationMode.PingPong)
    (hst : s.state = AnimationState.Playing)
    (hdel : ¬s.delay_elapsed < s.delay)
    (he : s.elapsed_time = F32.val eq)
    (hd : s.duration = d) (hpos : 0 < d) :
    (s.reverse = false → d ≤ eq + δ * s.speed →
      (s.update δ).elapsed_time = F32.val d ∧ (s.update δ).reverse = true) ∧
    (s.reverse = true → eq - δ * s.speed ≤ 0 →
      (s.update δ).elapsed_time = F32.val 0 ∧ (s.update δ).reverse = false ∧
        (s.update δ).repeat_count = s.repeat_count + 1) ∧
    (s.update δ).state = AnimationState.Playing := by
  have hu : s.update δ = s.update_animation δ := by
    simp [AnimationTimeline.update, hst, hdel]
  have hclamp0 : clampQ 0 0 d = 0 := by
    unfold clampQ
    split_ifs <;> linarith
  have hclampd : clampQ d 0 d = d := by
    unfold clampQ
    split_ifs <;> linarith
  refine ⟨?_, ?_, ?_⟩
  · intro hrev hge
    have hge' : (F32.val (eq + δ * s.speed)).ge d = true := by
      simp only [F32.ge, decide_eq_true_eq]
      exact hge
    rw [hu]
    simp only [AnimationTimeline.update_animation, hm, he, hrev, hd, F32.add,
      F32.sub]
    simp [hge', F32.clamp, hclampd]
  · intro hrev hle
    have hle' : (F32.val (eq - δ * s.speed)).le 0 = true := by
      simp only [F32.le, decide_eq_true_eq]
      exact hle
    rw [hu]
    simp only [AnimationTimeline.update_animation, hm, he, hrev, hd, F32.add,
      F32.sub]
    simp [hle', F32.clamp, hclamp0]
  · rw [hu]
    simp only [AnimationTimeline.update_animation, hm]
    split <;> (try split) <;> (try split) <;> simp [hst]

/-- Witness for C4: the spec's duration-2 PingPong run — `update(2.5)`
clamps to 2 and flips reverse on; `update(1.0)` decreases elapsed to 1;
a further `update(1.0)` reaches 0, flips reverse off, and sets
`repeat_count` to 1; the state stays Playing throughout. -/
theorem C4_pingpong_boundaries_witness :
    ((pingTimeline.update (5/2)).elapsed_time = F32.val 2 ∧
      (pingTimeline.update (5/2)).reverse = true) ∧
    ((pingTimeline.update (5/2)).update 1).elapsed_time = F32.val 1 ∧
    ((((pingTimeline.update (5/2)).update 1).update 1).elapsed_time = F32.val 0 ∧
      (((pingTimeline.update (5/2)).update 1).update 1).reverse = false ∧
      (((pingTimeline.update (5/2)).update 1).update 1).repeat_count = 1) ∧
    (((pingTimeline.update (5/2)).update 1).update 1).state =
      AnimationState.Playing := by
  have hfirst :=
    C4_pingpong_boundaries pingTimeline (5/2) 0 2 rfl rfl (by norm_num [pingTimeline, AnimationTimeline.new]) rfl rfl (by norm_num)
  have h1 : pingTimeline.update (5/2) =
      { pingTimeline with elapsed_time := .val 2, reverse := true } := by
    norm_num [pingTimeline, AnimationTimeline.new, AnimationTimeline.update,
      AnimationTimeline.update_animation, F32.add, F32.ge, F32.clamp, clampQ]
  have h2 : (pingTimeline.update (5/2)).update 1 =
      { pingTimeline with elapsed_time := .val 1, reverse := true } := by
    rw [h1]
    norm_num [pingTimeline, AnimationTimeline.new, AnimationTimeline.update,
      AnimationTimeline.update_animation, F32.sub, F32.ge, F32.le, F32.clamp,
      clampQ]
  have h3 : ((pingTimeline.update (5/2)).update 1).update 1 =
      { pingTimeline with
        elapsed_time := .val 0
        reverse := false
        repeat_count := 1 } := by
    rw [h2]
    norm_num [pingTimeline, AnimationTimeline.new, AnimationTimeline.update,
      AnimationTimeline.update_animation, F32.sub, F32.ge, F32.le, F32.clamp,
      clampQ]
  exact ⟨hfirst.1 rfl (by norm_num [pingTimeline, AnimationTimeline.new]),
    by rw [h2], ⟨by rw [h3], by rw [h3], by rw [h3]⟩, by rw [h3]; rfl⟩

/-- The last element of `p :: (pre ++ k :: post)` is the last element
of `k :: post`. -/
theorem getLast_cons_append_kf :
    ∀ (pre : List Keyframe) (p k : Keyframe) (post : List Keyframe),
      (p :: (pre ++ k :: post)).getLast (List.cons_ne_nil _ _) =
        (k :: post).getLast (List.cons_ne_nil k post) := by
  intro pre
  induction pre with
  | nil =>
    intro p k post
    exact List.getLast_cons (List.cons_ne_nil k post)
  | cons q pre2 ih =>
    intro p k post
    rw [List.cons_append,
      List.getLast_cons (List.cons_ne_nil q (pre2 ++ k :: post))]
    exact ih q k post

/-- On a strictly time-sorted list, the bracketing-pair loop stops at
the adjacent pair `(k1, k2)` around `t` and interpolates it. -/
theorem segValue_bracket (t : ℚ) :
    ∀ (pre : List Keyframe) (k1 k2 : Keyframe) (post : List Keyframe),
      (pre ++ k1 :: k2 :: post).Pairwise (fun a b => a.time < b.time) →
      k1.time < t → t ≤ k2.time →
      segValue t (pre ++ k1 :: k2 :: post) =
        k1.property.interpolate k2.property
          ((t - k1.time) / (k2.time - k1.time)) k2.easing := by
  intro pre
  induction pre with
  | nil =>
    intro k1 k2 post hs h1 h2
    simp only [List.nil_append, segValue]
    rw [if_pos ⟨le_of_lt h1, h2⟩]
  | cons p pre ih =>
    intro k1 k2 post hs h1 h2
    simp only [List.cons_append] at hs ⊢
    have hs' : (pre ++ k1 :: k2 :: post).Pairwise (fun a b => a.time < b.time) :=
      List.Pairwise.of_cons hs
    cases pre with
    | nil =>
      simp only [List.nil_append] at hs' ⊢
      rw [show segValue t (p :: k1 :: k2 :: post) =
          segValue t (k1 :: k2 :: post) from by
        simp only [segValue]
        rw [if_neg (fun hc => absurd hc.2 (not_le.2 h1))]]
      have := ih k1 k2 post (by simpa using hs') h1 h2
      simpa using this
    | cons q pre2 =>
      simp only [List.cons_append] at hs' ⊢
      have hq : q.time < k1.time :=
        (List.pairwise_cons.1 hs').1 k1 (by simp)
      have hqt : q.time < t := lt_trans hq h1
      rw [show segValue t (p :: q :: (pre2 ++ k1 :: k2 :: post)) =
          segValue t (q :: (pre2 ++ k1 :: k2 :: post)) from by
        simp only [segValue]
        rw [if_neg (fun hc => absurd hc.2 (not_le.2 hqt))]]
      have := ih k1 k2 post (by simpa using hs') h1 h2
      simpa using this

/-- C2: on a strictly time-sorted track, `get_value_at` returns none on
an empty track, clamps to the first keyframe's value at or before its
time, clamps to the last keyframe's value at or after its time, and
otherwise interpolates the bracketing adjacent pair `(prev, next)` with
`u = (time - prev.time) / (next.time - prev.time)` and next's easing. -/
theorem C2_get_value_at_clamps_and_interpolates (tr : KeyframeTrack) (t : ℚ)
    (hs : tr.keyframes.Pairwise (fun a b => a.time < b.time)) :
    (tr.keyframes = [] → tr.get_value_at t = none) ∧
    (∀ k0 rest, tr.keyframes = k0 :: rest → t ≤ k0.time →
      tr.get_value_at t = some k0.property) ∧
    (∀ kl, tr.keyframes.getLast? = some kl → kl.time ≤ t →
      tr.get_value_at t = some kl.property) ∧
    (∀ pre k1 k2 post, tr.keyframes = pre ++ k1 :: k2 :: post →
      k1.time < t → t ≤ k2.time →
      t < ((k2 :: post).getLast (List.cons_ne_nil k2 post)).time →
      tr.get_value_at t =
        k1.property.interpolate k2.property
          ((t - k1.time) / (k2.time - k1.time)) k2.easing) := by
  refine ⟨?_, ?_, ?_, ?_⟩
  · intro h
    simp [KeyframeTrack.get_value_at, h]
  · intro k0 rest h hle
    simp [KeyframeTrack.get_value_at, h, hle]
  · intro kl hlast hle
    cases hkf : tr.keyframes with
    | nil => rw [hkf] at hlast; simp at hlast
    | cons k0 rest =>
      rw [hkf] at hlast hs
      have hkl : (k0 :: rest).getLast (List.cons_ne_nil k0 rest) = kl := by
        rw [List.getLast?_eq_getLast _ (List.cons_ne_nil k0 rest)] at hlast
        exact Option.some.inj hlast
      cases rest with
      | nil =>
        have hk0 : k0 = kl := by simpa using hkl
        subst hk0
        simp only [KeyframeTrack.get_value_at, hkf]
        split_ifs with hA hB
        · rfl
        · simp
        · exact absurd (by simpa using hle) hB
      | cons r rs =>
        have hlt : k0.time < kl.time := by
          have hmem : kl ∈ r :: rs := by
            rw [← hkl, List.getLast_cons (List.cons_ne_nil r rs)]
            exact List.getLast_mem (List.cons_ne_nil r rs)
          exact (List.pairwise_cons.1 hs).1 kl hmem
        have hnot : ¬t ≤ k0.time := fun hc =>
          absurd (lt_of_lt_of_le hlt hle) (not_lt.2 hc)
        simp only [KeyframeTrack.get_value_at, hkf]
        rw [if_neg hnot, if_pos (by rw [hkl]; exact hle), hkl]
  · intro pre k1 k2 post heq h1 h2 hlt
    cases hpre : pre with
    | nil =>
      rw [hpre] at heq
      simp only [List.nil_append] at heq
      have hnot1 : ¬t ≤ k1.time := not_le.2 h1
      simp only [KeyframeTrack.get_value_at, heq]
      rw [if_neg hnot1, if_neg (by
        rw [show (k1 :: k2 :: post).getLast (List.cons_ne_nil k1 (k2 :: post)) =
            (k2 :: post).getLast (List.cons_ne_nil k2 post) from
          List.getLast_cons (List.cons_ne_nil k2 post)]
        exact not_le.2 hlt)]
      rw [show segValue t (k1 :: k2 :: post) =
          segValue t ([] ++ k1 :: k2 :: post) from by simp]
      exact segValue_bracket t [] k1 k2 post (by rw [heq] at hs; simpa using hs)
        h1 h2
    | cons p pre2 =>
      rw [hpre] at heq
      simp only [List.cons_append] at heq
      rw [heq] at hs
      have hp : p.time < t := by
        have hp1 : ∀ b ∈ pre2 ++ k1 :: k2 :: post, p.time < b.time :=
          (List.pairwise_cons.1 hs).1
        exact lt_trans (hp1 k1 (by simp)) h1
      have hnot1 : ¬t ≤ p.time := not_le.2 hp
      simp only [KeyframeTrack.get_value_at, heq]
      rw [if_neg hnot1, if_neg (by
        rw [getLast_cons_append_kf pre2 p k1 (k2 :: post),
          List.getLast_cons (List.cons_ne_nil k2 post)]
        exact not_le.2 hlt)]
      have hseg := segValue_bracket t (p :: pre2) k1 k2 post
        (by simpa using hs) h1 h2
      simpa using hseg

/-- Witness for C2: the spec's Scale track with keyframes 1, 2, 1 at
t = 0, 1, 2 samples to Scale 1.5 at 0.5, and clamps to Scale 1 at -1
and at 5. -/
theorem C2_get_value_at_witness :
    scaleTrack.get_value_at (1/2) = some (.Scale ⟨3/2, 3/2⟩) ∧
    scaleTrack.get_value_at (-1) = some (.Scale ⟨1, 1⟩) ∧
    scaleTrack.get_value_at 5 = some (.Scale ⟨1, 1⟩) := by
  have hsorted : scaleTrack.keyframes.Pairwise (fun a b => a.time < b.time) := by
    norm_num [scaleTrack]
  refine ⟨?_, ?_, ?_⟩
  · have h4 := (C2_get_value_at_clamps_and_interpolates scaleTrack (1/2)
      hsorted).2.2.2 [] ⟨0, .Scale ⟨1, 1⟩, .Linear⟩ ⟨1, .Scale ⟨2, 2⟩, .Linear⟩
      [⟨2, .Scale ⟨1, 1⟩, .Linear⟩] rfl (by norm_num) (by norm_num)
      (by norm_num [List.getLast])
    rw [h4]
    norm_num [AnimatableProperty.interpolate, lerp_with_easing, Easing.apply,
      applyClamped, clampQ]
  · exact (C2_get_value_at_clamps_and_interpolates scaleTrack (-1)
      hsorted).2.1 ⟨0, .Scale ⟨1, 1⟩, .Linear⟩ _ rfl (by norm_num)
  · exact (C2_get_value_at_clamps_and_interpolates scaleTrack 5
      hsorted).2.2.1 ⟨2, .Scale ⟨1, 1⟩, .Linear⟩ rfl (by norm_num)

/-- C5: `build()` leaves empty tracks and tracks whose first keyframe
is at time 0 unchanged, and prepends to every track whose first
keyframe's time is positive one keyframe at time 0 with Linear easing
holding the channel identity matched on the first keyframe's variant. -/
theorem C5_build_inserts_identity_start (b : AnimationBuilder) :
    (∀ n tr, (n, tr) ∈ b.timeline.tracks → tr.keyframes = [] →
      (n, tr) ∈ b.build.tracks) ∧
    (∀ n tr k0 rest, (n, tr) ∈ b.timeline.tracks →
      tr.keyframes = k0 :: rest → k0.time = 0 →
      (n, tr) ∈ b.build.tracks) ∧
    (∀ n tr k0 rest, (n, tr) ∈ b.timeline.tracks →
      tr.keyframes = k0 :: rest → 0 < k0.time →
      (n, { tr with keyframes :=
          ⟨0, AnimationBuilder.defaultProperty k0.property, .Linear⟩ ::
            tr.keyframes }) ∈ b.build.tracks) := by
  refine ⟨?_, ?_, ?_⟩
  · intro n tr hmem hempty
    have h := List.mem_map_of_mem
      (fun nt => (nt.1, AnimationBuilder.buildTrack nt.2)) hmem
    simpa [AnimationBuilder.build, AnimationBuilder.buildTrack, hempty] using h
  · intro n tr k0 rest hmem hkf h0
    have h := List.mem_map_of_mem
      (fun nt => (nt.1, AnimationBuilder.buildTrack nt.2)) hmem
    simpa [AnimationBuilder.build, AnimationBuilder.buildTrack, hkf, h0]
      using h
  · intro n tr k0 rest hmem hkf hpos
    have h := List.mem_map_of_mem
      (fun nt => (nt.1, AnimationBuilder.buildTrack nt.2)) hmem
    simpa [AnimationBuilder.build, AnimationBuilder.buildTrack, hkf, hpos]
      using h

/-- Witness for C5: two chained `move_to` calls author keyframes at
t = 1 and t = 2 only; `build()` adds a `Position(zero)` keyframe at
t = 0 with Linear easing. -/
theorem C5_build_inserts_identity_start_witness :
    (AnimationBuilder.positionChannel,
      (⟨AnimationBuilder.positionChannel,
        [⟨0, .Position ⟨0, 0⟩, .Linear⟩,
         ⟨1, .Position ⟨5, 0⟩, .Linear⟩,
         ⟨2, .Position ⟨7, 0⟩, .Linear⟩]⟩ : KeyframeTrack)) ∈
      twoMoveBuilder.build.tracks := by
  have htracks : twoMoveBuilder.timeline.tracks =
      [(AnimationBuilder.positionChannel,
        ⟨AnimationBuilder.positionChannel,
         [⟨1, .Position ⟨5, 0⟩, .Linear⟩,
          ⟨2, .Position ⟨7, 0⟩, .Linear⟩]⟩)] := by
    norm_num [twoMoveBuilder, AnimationBuilder.new, AnimationBuilder.move_to,
      AnimationTimeline.new, AnimationTimeline.add_keyframe,
      AnimationTimeline.update_duration, AnimationTimeline.addTrackKeyframe,
      KeyframeTrack.add_keyframe, Keyframe.position, insertSorted]
  have h := (C5_build_inserts_identity_start twoMoveBuilder).2.2
    AnimationBuilder.positionChannel
    ⟨AnimationBuilder.positionChannel,
     [⟨1, .Position ⟨5, 0⟩, .Linear⟩, ⟨2, .Position ⟨7, 0⟩, .Linear⟩]⟩
    ⟨1, .Position ⟨5, 0⟩, .Linear⟩ [⟨2, .Position ⟨7, 0⟩, .Linear⟩]
    (by rw [htracks]; simp) rfl (by norm_num)
  simpa [AnimationBuilder.defaultProperty] using h

/-- In an association list with no duplicate keys, two entries with the
same key carry the same value. -/
theorem assoc_value_eq_of_nodup {β : Type} :
    ∀ (l : List (String × β)), (l.map Prod.fst).Nodup →
      ∀ a (b1 b2 : β), (a, b1) ∈ l → (a, b2) ∈ l → b1 = b2 := by
  intro l
  induction l with
  | nil =>
    intro _ a b1 b2 h1 _
    simp at h1
  | cons x xs ih =>
    intro hn a b1 b2 h1 h2
    simp only [List.map_cons, List.nodup_cons] at hn
    rcases List.mem_cons.1 h1 with h1 | h1 <;>
      rcases List.mem_cons.1 h2 with h2 | h2
    · rw [← h1] at h2
      exact ((Prod.ext_iff).1 h2).2.symm
    · exact absurd (by rw [← h1]; exact List.mem_map.2 ⟨(a, b2), h2, rfl⟩) hn.1
    · exact absurd (by rw [← h2]; exact List.mem_map.2 ⟨(a, b1), h1, rfl⟩) hn.1
    · exact ih hn.2 a b1 b2 h1 h2

/-- C8: interpolating properties of different variants (or Custom
values with different names) yields none; a channel whose sample yields
none is omitted from `get_current_values`; and the frame's application
pass leaves the transform translation untouched when no Position value
is applied. -/
theorem C8_mismatch_yields_none :
    (∀ a b (t : ℚ) (e : Easing), sameVariant a b = false →
      AnimatableProperty.interpolate a b t e = none) ∧
    (∀ (s : AnimationTimeline) (q : ℚ) n tr,
      s.elapsed_time = F32.val q →
      (s.tracks.map Prod.fst).Nodup →
      (n, tr) ∈ s.tracks → tr.get_value_at q = none →
      ∀ v, (n, v) ∉ s.get_current_values) ∧
    (∀ values tf, (∀ nv ∈ values, nv.2.isPosition = false) →
      (applyValuesToTransform values tf).translation = tf.translation) := by
  refine ⟨?_, ?_, ?_⟩
  · intro a b t e h
    cases a <;> cases b <;>
      simp_all [sameVariant, AnimatableProperty.interpolate]
  · intro s q n tr he hnodup hmem hnone v hv
    rw [AnimationTimeline.get_current_values, he] at hv
    obtain ⟨⟨m, tr2⟩, hmem2, hf⟩ := List.mem_filterMap.1 hv
    obtain ⟨w, hw, hpair⟩ := Option.map_eq_some'.1 hf
    obtain ⟨hm, hv2⟩ := (Prod.ext_iff).1 hpair
    subst hm
    have htr : tr2 = tr := assoc_value_eq_of_nodup s.tracks hnodup m tr2 tr
      hmem2 hmem
    rw [htr, hnone] at hw
    exact Option.noConfusion hw
  · intro values
    induction values with
    | nil => intro tf _; rfl
    | cons nv rest ih =>
      intro tf hno
      have hhead : nv.2.isPosition = false := hno nv (by simp)
      have htl : ∀ x ∈ rest, x.2.isPosition = false := fun x hx =>
        hno x (by simp [hx])
      have happ : (nv.2.apply_to_transform tf).translation = tf.translation := by
        cases hp : nv.2 <;>
          simp_all [AnimatableProperty.apply_to_transform,
            AnimatableProperty.isPosition]
      calc (applyValuesToTransform (nv :: rest) tf).translation
          = (applyValuesToTransform rest (nv.2.apply_to_transform tf)).translation := rfl
        _ = (nv.2.apply_to_transform tf).translation := ih _ htl
        _ = tf.translation := happ

/-- Witness for C8: Position against Rotation interpolates to none; the
mismatch timeline's "position" channel is absent from
`get_current_values`; applying only a Rotation value leaves the
translation unchanged. -/
theorem C8_mismatch_yields_none_witness :
    (AnimatableProperty.Position ⟨1, 2⟩).interpolate
      (.Rotation 3) (1/2) .Linear = none ∧
    (∀ v, (AnimationBuilder.positionChannel, v) ∉
      mismatchTimeline.get_current_values) ∧
    (applyValuesToTransform
      [(AnimationBuilder.rotationChannel, .Rotation 5)]
      ⟨⟨1, 2, 3⟩, 0, ⟨1, 1, 1⟩⟩).translation = ⟨1, 2, 3⟩ := by
  refine ⟨C8_mismatch_yields_none.1 _ _ _ _ rfl, ?_, ?_⟩
  · refine C8_mismatch_yields_none.2.1 mismatchTimeline (1/2) _
      ⟨AnimationBuilder.positionChannel,
       [⟨0, .Position ⟨0, 0⟩, .Linear⟩, ⟨1, .Rotation 0, .Linear⟩]⟩
      rfl (by simp [mismatchTimeline]) (by simp [mismatchTimeline]) ?_
    norm_num [KeyframeTrack.get_value_at, segValue,
      AnimatableProperty.interpolate]
  · exact C8_mismatch_yields_none.2.2 _ _ (by simp [AnimatableProperty.isPosition])

/-- C9 (counterexample): interpolating Opacity 0 toward Opacity 1 at
t = 1/2 under EaseOutBack produces Opacity 1.0876975 > 1, and
`apply_to_material` writes that value to the material alpha without any
clamping — so the written opacity is not always in [0, 1]. -/
theorem C9_counterexample_opacity_overshoot :
    (AnimatableProperty.Opacity 0).interpolate (.Opacity 1) (1/2)
      .EaseOutBack = some (.Opacity (435079/400000)) ∧
    (1 : ℚ) < 435079/400000 ∧
    ((AnimatableProperty.Opacity (435079/400000)).apply_to_material
      ⟨ColorQ.white⟩).color.alpha = 435079/400000 := by
  refine ⟨?_, by norm_num, rfl⟩
  norm_num [AnimatableProperty.interpolate, lerp_with_easing, Easing.apply,
    applyClamped, clampQ]

/-- C9 (amended): `fade_to` clamps its opacity argument to [0, 1] at
keyframe-construction time; interpolation and `apply_to_material` do
not clamp, so a written opacity is guaranteed in [0, 1] only when the
easing output at the sample point lies in [0, 1] (as for Linear) and
the endpoint opacities do. -/
theorem C9_opacity_clamped_at_construction :
    (∀ (b : AnimationBuilder) (o d : ℚ) (e : Easing),
      0 ≤ clampQ o 0 1 ∧ clampQ o 0 1 ≤ 1 ∧
      (b.fade_to o d e).timeline =
        b.timeline.add_keyframe AnimationBuilder.opacityChannel
          (Keyframe.opacity (b.current_time + d) (clampQ o 0 1) e)) ∧
    (∀ (a c t : ℚ) (e : Easing), 0 ≤ a → a ≤ 1 → 0 ≤ c → c ≤ 1 →
      0 ≤ e.apply t → e.apply t ≤ 1 →
      ∃ r, (AnimatableProperty.Opacity a).interpolate (.Opacity c) t e =
          some (.Opacity r) ∧ 0 ≤ r ∧ r ≤ 1 ∧
        ∀ m, ((AnimatableProperty.Opacity r).apply_to_material m).color.alpha
          = r) := by
  constructor
  · intro b o d e
    exact ⟨(clampQ_mem o 0 1 (by norm_num)).1,
      (clampQ_mem o 0 1 (by norm_num)).2, rfl⟩
  · intro a c t e ha0 ha1 hc0 hc1 he0 he1
    refine ⟨lerp_with_easing a c t e, rfl, ?_, ?_, fun m => rfl⟩
    · unfold lerp_with_easing
      nlinarith [mul_nonneg (sub_nonneg.2 hc0) he0]
    · unfold lerp_with_easing
      nlinarith [mul_nonneg (sub_nonneg.2 ha0) (sub_nonneg.2 he1)]

/-- Witness for C9's amended theorem: `fade_to 2` stores opacity 1, and
Linear interpolation from Opacity 0 to Opacity 1 at t = 1/2 yields an
in-range written opacity. -/
theorem C9_opacity_clamped_at_construction_witness :
    clampQ 2 0 1 = 1 ∧
    ∃ r, (AnimatableProperty.Opacity 0).interpolate (.Opacity 1) (1/2)
        .Linear = some (.Opacity r) ∧ 0 ≤ r ∧ r ≤ 1 := by
  constructor
  · norm_num [clampQ]
  · obtain ⟨r, h1, h2, h3, _⟩ :=
      C9_opacity_clamped_at_construction.2 0 1 (1/2) .Linear (by norm_num)
        (by norm_num) (by norm_num) (by norm_num)
        (by norm_num [Easing.apply, applyClamped, clampQ])
        (by norm_num [Easing.apply, applyClamped, clampQ])
    exact ⟨r, h1, h2, h3⟩

/-- C10: `move_by` appends a keyframe at `cursor + duration` holding
exactly `Position(delta)` (an absolute target, not an offset from the
previous keyframe), and inserts a `Position(zero)` keyframe at time 0
only when the cursor is 0 at the call: two chained calls from a fresh
builder yield exactly the three keyframes below. -/
theorem C10_move_by_is_absolute (n : String) (δ₁ δ₂ : Vec2) (d₁ d₂ : ℚ)
    (e₁ e₂ : Easing) (h₁ : 0 < d₁) (h₂ : 0 < d₂) :
    (((AnimationBuilder.new n).move_by δ₁ d₁ e₁).move_by δ₂ d₂ e₂).current_time
      = d₁ + d₂ ∧
    (((AnimationBuilder.new n).move_by δ₁ d₁ e₁).move_by
        δ₂ d₂ e₂).timeline.tracks =
      [(AnimationBuilder.positionChannel,
        ⟨AnimationBuilder.positionChannel,
         [⟨0, .Position ⟨0, 0⟩, .Linear⟩,
          ⟨d₁, .Position δ₁, e₁⟩,
          ⟨d₁ + d₂, .Position δ₂, e₂⟩]⟩)] ∧
    ∀ (b : AnimationBuilder) (δ : Vec2) (d : ℚ) (e : Easing),
      b.current_time ≠ 0 →
      (b.move_by δ d e).timeline =
        b.timeline.add_keyframe AnimationBuilder.positionChannel
          (Keyframe.position (b.current_time + d) δ e) ∧
      (b.move_by δ d e).current_time = b.current_time + d := by
  have ha : ¬d₁ < 0 := not_lt.2 h₁.le
  have hb : ¬d₁ + d₂ < 0 := not_lt.2 (by linarith)
  have hc : ¬d₁ + d₂ < d₁ := not_lt.2 (by linarith)
  have hd : d₁ ≠ 0 := ne_of_gt h₁
  refine ⟨?_, ?_, ?_⟩
  · simp [AnimationBuilder.new, AnimationBuilder.move_by]
  · simp [AnimationBuilder.new, AnimationBuilder.move_by,
      AnimationTimeline.new, AnimationTimeline.add_keyframe,
      AnimationTimeline.update_duration, AnimationTimeline.addTrackKeyframe,
      KeyframeTrack.add_keyframe, Keyframe.position, insertSorted,
      ha, hb, hc, hd]
  · intro b δ d e hne
    constructor
    · simp [AnimationBuilder.move_by, hne]
    · rfl

/-- Witness for C10: two `move_by` calls of duration 1 from a fresh
builder produce the zero keyframe, then absolute Position(3,4) at t = 1
and absolute Position(5,6) at t = 2. -/
theorem C10_move_by_is_absolute_witness :
    (((AnimationBuilder.new ("w")).move_by ⟨3, 4⟩ 1 .Linear).move_by
      ⟨5, 6⟩ 1 .Linear).current_time = 2 ∧
    (((AnimationBuilder.new ("w")).move_by ⟨3, 4⟩ 1 .Linear).move_by
      ⟨5, 6⟩ 1 .Linear).timeline.tracks =
      [(AnimationBuilder.positionChannel,
        ⟨AnimationBuilder.positionChannel,
         [⟨0, .Position ⟨0, 0⟩, .Linear⟩,
          ⟨1, .Position ⟨3, 4⟩, .Linear⟩,
          ⟨2, .Position ⟨5, 6⟩, .Linear⟩]⟩)] := by
  have h := C10_move_by_is_absolute ("w") ⟨3, 4⟩ ⟨5, 6⟩ 1 1 .Linear .Linear
    (by norm_num) (by norm_num)
  constructor
  · rw [h.1]
    norm_num
  · rw [h.2.1]
    norm_num

end Kosmos
